import Mathlib

/-!
Verification of the counting-gate primitive `AMD::TLCounter`
(src/samples/sample_task_system/TLCounter.h, std::mutex branch, lines 187-309).

The gate holds a signed `counter` and a waiter count `numWaiters`, both
guarded by one mutex, plus a condition variable.  `int32_t` arithmetic is
modelled by unbounded `Int` (signed overflow is undefined behaviour in the
source, so well-defined executions never wrap).

Each critical section of the source runs atomically under the single lock,
so the embedding takes one lock-held region of code as one atomic step.
The compile-time flag `TL_WAKE_ONE` (set to 1 in the source) selects the
wake policy, modelled by `Policy`.
-/

set_option maxHeartbeats 1000000

namespace TLC

/-- Wake policy: `TL_WAKE_ONE` nonzero selects wake-one-with-relay,
otherwise every triggering decrement wakes all waiters. -/
inductive Policy
  | wakeOne
  | wakeAll
deriving DecidableEq, Repr

/-- A call made on the condition variable by a mutating operation:
`notify_one` or `notify_all`. -/
inductive WakeCmd
  | one
  | all
deriving DecidableEq, Repr

/-- Which notify call a triggering `Decrement`/`Subtract` makes under
each policy (`#if TL_WAKE_ONE ... notify_one ... #else ... notify_all`). -/
def wakeOf : Policy → WakeCmd
  | .wakeOne => .one
  | .wakeAll => .all

/-- The two mutex-protected fields of `TLCounter`. -/
structure Gate where
  counter : Int
  numWaiters : Int
deriving DecidableEq, Repr

/-- `Increment` (source lines 256-261): `return ++counter;` under the lock.
Result: (new state, returned value, notify calls made).  No notify. -/
def Increment (g : Gate) : Gate × Int × List WakeCmd :=
  (⟨g.counter + 1, g.numWaiters⟩, g.counter + 1, [])

/-- `Decrement` (source lines 263-280): `counter--`, then if the new value
is ≤ 0 it calls `notify_one` (or `notify_all` without TL_WAKE_ONE), and
returns the new value. -/
def Decrement (p : Policy) (g : Gate) : Gate × Int × List WakeCmd :=
  (⟨g.counter - 1, g.numWaiters⟩, g.counter - 1,
    if g.counter - 1 ≤ 0 then [wakeOf p] else [])

/-- `Add` (source lines 282-288): `counter += count; return counter;`
under the lock.  It makes no notify call. -/
def Add (g : Gate) (count : Int) : Gate × Int × List WakeCmd :=
  (⟨g.counter + count, g.numWaiters⟩, g.counter + count, [])

/-- `Subtract` (source lines 290-308): `counter -= count`, then if the new
value is ≤ 0 it calls `notify_one` (or `notify_all`), returning the new
value. -/
def Subtract (p : Policy) (g : Gate) (count : Int) : Gate × Int × List WakeCmd :=
  (⟨g.counter - count, g.numWaiters⟩, g.counter - count,
    if g.counter - count ≤ 0 then [wakeOf p] else [])

/-- One mutating call, as data, for reasoning about call sequences. -/
inductive MutOp
  | increment
  | decrement
  | add (n : Int)
  | subtract (n : Int)
deriving DecidableEq, Repr

/-- The signed delta a mutating call contributes to the counter. -/
def mutDelta : MutOp → Int
  | .increment => 1
  | .decrement => -1
  | .add n => n
  | .subtract n => -n

/-- Apply one mutating call to the gate state. -/
def applyMut (p : Policy) (g : Gate) (op : MutOp) : Gate :=
  match op with
  | .increment => (Increment g).1
  | .decrement => (Decrement p g).1
  | .add n => (Add g n).1
  | .subtract n => (Subtract p g n).1

/-- Run a serialized sequence of mutating calls. -/
def runMuts (p : Policy) (g : Gate) (ops : List MutOp) : Gate :=
  ops.foldl (applyMut p) g

/-- Which wait entry point a thread is executing. -/
inductive WaitKind
  | untilZero
  | oneWakeup
deriving DecidableEq, Repr

/-- Where a waiting thread is in its wait call:
`ready` = about to acquire the lock and test the condition;
`sleeping` = parked in `condVar.wait` (lock released);
`woken` = unblocked by a notify (or spuriously), about to reacquire the
lock and resume after `wait`;
`done d` = returned from the wait call with `didWait = d`. -/
inductive Phase
  | ready
  | sleeping
  | woken
  | done (didWait : Bool)
deriving DecidableEq, Repr

/-- One thread executing a wait call: its entry point, its phase, and the
number of times it has entered `condVar.wait`. -/
structure Thread where
  kind : WaitKind
  phase : Phase
  sleeps : Nat
deriving DecidableEq, Repr

/-- The whole system: the gate fields plus the waiting threads. -/
structure SysState where
  counter : Int
  numWaiters : Int
  threads : List Thread
deriving DecidableEq, Repr

/-- Unblocking a parked thread: it keeps its kind and sleep count. -/
def wakeThread (t : Thread) : Thread :=
  ⟨t.kind, .woken, t.sleeps⟩

/-- Effect of `notify_all`: every sleeping thread is unblocked. -/
def wakeAllAct (ts : List Thread) : List Thread :=
  ts.map fun t => if t.phase = .sleeping then wakeThread t else t

/-- Effect of `notify_one`: some currently sleeping thread is unblocked
(the choice is up to the runtime); if no thread is sleeping the call is a
no-op. -/
inductive NotifyOne : List Thread → List Thread → Prop
  | wake (ts : List Thread) (i : Nat) (t : Thread)
      (ht : ts[i]? = some t) (hp : t.phase = .sleeping) :
      NotifyOne ts (ts.set i (wakeThread t))
  | idle (ts : List Thread) (h : ∀ t ∈ ts, t.phase ≠ .sleeping) :
      NotifyOne ts ts

/-- Effect of one notify call. -/
inductive NotifyCmd : WakeCmd → List Thread → List Thread → Prop
  | one {ts ts' : List Thread} (h : NotifyOne ts ts') : NotifyCmd .one ts ts'
  | all (ts : List Thread) : NotifyCmd .all ts (wakeAllAct ts)

/-- Effect of a list of notify calls, in order. -/
inductive NotifyList : List WakeCmd → List Thread → List Thread → Prop
  | nil (ts : List Thread) : NotifyList [] ts ts
  | cons {c : WakeCmd} {cs : List WakeCmd} {ts ts' ts'' : List Thread}
      (h : NotifyCmd c ts ts') (hrest : NotifyList cs ts' ts'') :
      NotifyList (c :: cs) ts ts''

/-- The relay condition of the wait paths (source lines 221-226, 246-251):
under `TL_WAKE_ONE`, after leaving the wait loop and still under the lock,
`if (numWaiters > 0) condVar.notify_one();`.  Without `TL_WAKE_ONE` the
block does not exist. -/
def relayB (p : Policy) (w : Int) : Bool :=
  match p with
  | .wakeOne => decide (0 < w)
  | .wakeAll => false

/-- A conditional `notify_one`: performed exactly when the flag is true. -/
inductive MaybeNotify : Bool → List Thread → List Thread → Prop
  | no (ts : List Thread) : MaybeNotify false ts ts
  | yes {ts ts' : List Thread} (h : NotifyOne ts ts') : MaybeNotify true ts ts'

/-- Observable label of one atomic step: which call ran, its return value,
and for `Decrement`/`Subtract` whether a notify call was made; wait-side
steps carry the index of the thread, and a completed wait carries its
`didWait` result and whether it relayed a wake on exit. -/
inductive Label
  | increment (ret : Int)
  | decrement (ret : Int) (wake : Bool)
  | add (n ret : Int)
  | subtract (n ret : Int) (wake : Bool)
  | park (i : Nat)
  | spurious (i : Nat)
  | ret (i : Nat) (didWait : Bool) (relay : Bool)
deriving DecidableEq, Repr

/-- Small-step semantics of the gate.  Each constructor is one lock-held
critical section of the source:

* `increment`, `add`: pure counter updates, no notify (lines 256-261,
  282-288);
* `decrement`, `subtract`: counter update plus conditional notify
  (lines 263-280, 290-308);
* `enterPark`: a thread in `ready` finds `counter > 0`, does
  `numWaiters++` and parks in `condVar.wait` (lines 212-215, 237-240);
* `enterReturn`: a thread in `ready` finds `counter ≤ 0`, skips the loop
  body, relays under `TL_WAKE_ONE` if `numWaiters > 0`, and returns
  `didWait = false` (lines 212, 221-228, 237, 246-253);
* `spuriousWake`: a parked thread is unblocked without a notify, as
  `std::condition_variable` permits;
* `wokenRepark`: a `WaitUntilZero` thread resumes from `wait`, does
  `numWaiters--`, sets `didWait`, re-tests `counter > 0`, finds it true,
  does `numWaiters++` and parks again (lines 212-218);
* `wokenReturn`: a resumed thread leaves the loop — a `WaitUntilZero`
  thread because `counter ≤ 0`, a `WaitOneWakeup` thread unconditionally
  (`if`, not `while`, line 237) — does `numWaiters--`, relays if
  `numWaiters > 0`, and returns `didWait = true`. -/
inductive Step (p : Policy) : SysState → Label → SysState → Prop
  | increment (s : SysState) :
      Step p s (.increment (s.counter + 1)) ⟨s.counter + 1, s.numWaiters, s.threads⟩
  | decrement (s : SysState) (ts' : List Thread)
      (h : NotifyList (if s.counter - 1 ≤ 0 then [wakeOf p] else []) s.threads ts') :
      Step p s (.decrement (s.counter - 1) (decide (s.counter - 1 ≤ 0)))
        ⟨s.counter - 1, s.numWaiters, ts'⟩
  | add (s : SysState) (n : Int) :
      Step p s (.add n (s.counter + n)) ⟨s.counter + n, s.numWaiters, s.threads⟩
  | subtract (s : SysState) (n : Int) (ts' : List Thread)
      (h : NotifyList (if s.counter - n ≤ 0 then [wakeOf p] else []) s.threads ts') :
      Step p s (.subtract n (s.counter - n) (decide (s.counter - n ≤ 0)))
        ⟨s.counter - n, s.numWaiters, ts'⟩
  | enterPark (s : SysState) (i : Nat) (t : Thread)
      (ht : s.threads[i]? = some t) (hp : t.phase = .ready) (hc : 0 < s.counter) :
      Step p s (.park i)
        ⟨s.counter, s.numWaiters + 1, s.threads.set i ⟨t.kind, .sleeping, t.sleeps + 1⟩⟩
  | enterReturn (s : SysState) (i : Nat) (t : Thread) (ts' : List Thread)
      (ht : s.threads[i]? = some t) (hp : t.phase = .ready) (hc : s.counter ≤ 0)
      (hrel : MaybeNotify (relayB p s.numWaiters)
        (s.threads.set i ⟨t.kind, .done false, t.sleeps⟩) ts') :
      Step p s (.ret i false (relayB p s.numWaiters)) ⟨s.counter, s.numWaiters, ts'⟩
  | spuriousWake (s : SysState) (i : Nat) (t : Thread)
      (ht : s.threads[i]? = some t) (hp : t.phase = .sleeping) :
      Step p s (.spurious i) ⟨s.counter, s.numWaiters, s.threads.set i (wakeThread t)⟩
  | wokenRepark (s : SysState) (i : Nat) (t : Thread)
      (ht : s.threads[i]? = some t) (hp : t.phase = .woken) (hk : t.kind = .untilZero)
      (hc : 0 < s.counter) :
      Step p s (.park i)
        ⟨s.counter, s.numWaiters - 1 + 1, s.threads.set i ⟨t.kind, .sleeping, t.sleeps + 1⟩⟩
  | wokenReturn (s : SysState) (i : Nat) (t : Thread) (ts' : List Thread)
      (ht : s.threads[i]? = some t) (hp : t.phase = .woken)
      (hk : t.kind = .oneWakeup ∨ s.counter ≤ 0)
      (hrel : MaybeNotify (relayB p (s.numWaiters - 1))
        (s.threads.set i ⟨t.kind, .done true, t.sleeps⟩) ts') :
      Step p s (.ret i true (relayB p (s.numWaiters - 1))) ⟨s.counter, s.numWaiters - 1, ts'⟩

/-- A thread before its wait call. -/
def initThread (k : WaitKind) : Thread := ⟨k, .ready, 0⟩

/-- The freshly constructed gate (`counter = 0`, `numWaiters = 0`,
source lines 191-192) together with threads that will call wait. -/
def initState (ks : List WaitKind) : SysState :=
  ⟨0, 0, ks.map initThread⟩

/-- States reachable from a freshly constructed gate. -/
inductive Reach (p : Policy) : SysState → Prop
  | init (ks : List WaitKind) : Reach p (initState ks)
  | step (s : SysState) (l : Label) (s' : SysState)
      (hr : Reach p s) (hs : Step p s l s') : Reach p s'

/-- A thread counted by `numWaiters`: it has done `numWaiters++` and not
yet the matching `numWaiters--` (parked, or unblocked but not resumed). -/
def isParked (t : Thread) : Bool :=
  match t.phase with
  | .sleeping => true
  | .woken => true
  | _ => false

/-- Number of threads currently counted by `numWaiters`. -/
def countSW : List Thread → Int
  | [] => 0
  | t :: ts => (if isParked t then 1 else 0) + countSW ts

/-- Labels of wait-side steps (steps of `WaitUntilZero`/`WaitOneWakeup`). -/
def isWaitLabel : Label → Bool
  | .park _ => true
  | .spurious _ => true
  | .ret _ _ _ => true
  | _ => false

/-- Finitely many wait-side steps. -/
inductive WaitSteps (p : Policy) : SysState → SysState → Prop
  | refl (s : SysState) : WaitSteps p s s
  | cons {s s' s'' : SysState} {l : Label}
      (hst : Step p s l s') (hl : isWaitLabel l = true)
      (hrest : WaitSteps p s' s'') : WaitSteps p s s''

/-- A phase in which the wait call has returned. -/
def isDone : Phase → Bool
  | .done _ => true
  | _ => false

/-- Every thread has returned from its wait call. -/
def AllDone (s : SysState) : Prop := ∀ t ∈ s.threads, isDone t.phase = true

/-- Index of the first sleeping thread, if any. -/
def findSleeping : List Thread → Option Nat
  | [] => none
  | t :: ts =>
      if t.phase = .sleeping then some 0 else (findSleeping ts).map (· + 1)

/-- One concrete resolution of `notify_one`: wake the first sleeping
thread; a no-op when no thread is sleeping. -/
def notifyOneFn (ts : List Thread) : List Thread :=
  match findSleeping ts with
  | some i =>
      match ts[i]? with
      | some t => ts.set i (wakeThread t)
      | none => ts
  | none => ts

/-- One concrete resolution of the conditional relay notify. -/
def relayFn (b : Bool) (ts : List Thread) : List Thread :=
  if b then notifyOneFn ts else ts

/-- One concrete resolution of the notify a triggering `Decrement` or
`Subtract` makes: `notify_one` under wake-one, `notify_all` otherwise. -/
def triggerFn : Policy → List Thread → List Thread
  | .wakeOne, ts => notifyOneFn ts
  | .wakeAll, ts => wakeAllAct ts

/-- Number of threads that have not yet returned from their wait call. -/
def notDoneCount : List Thread → Nat
  | [] => 0
  | t :: ts => (if isDone t.phase then 0 else 1) + notDoneCount ts

/-- Per-thread bookkeeping invariant relating `didWait` and the number of
completed sleeps. -/
def ThreadInv (t : Thread) : Prop :=
  (t.phase = .ready → t.sleeps = 0) ∧
  ((t.phase = .sleeping ∨ t.phase = .woken) → 0 < t.sleeps) ∧
  (∀ d, t.phase = .done d → (d = true ↔ 0 < t.sleeps)) ∧
  (t.kind = .oneWakeup → t.sleeps ≤ 1)

/-- System invariant: `numWaiters` counts exactly the parked-or-unblocked
threads, and every thread satisfies its bookkeeping invariant. -/
def Inv (s : SysState) : Prop :=
  s.numWaiters = countSW s.threads ∧ ∀ t ∈ s.threads, ThreadInv t

lemma isParked_wake (t : Thread) : isParked (wakeThread t) = true := by
  simp [isParked, wakeThread]

lemma isParked_sleeping {t : Thread} (h : t.phase = .sleeping) : isParked t = true := by
  simp [isParked, h]

lemma isParked_woken {t : Thread} (h : t.phase = .woken) : isParked t = true := by
  simp [isParked, h]

lemma isParked_ready {t : Thread} (h : t.phase = .ready) : isParked t = false := by
  simp [isParked, h]

lemma idx_lt {ts : List Thread} {i : Nat} {t : Thread} (h : ts[i]? = some t) :
    i < ts.length := by
  rcases List.getElem?_eq_some.mp h with ⟨hlt, _⟩
  exact hlt

lemma idx_mem {ts : List Thread} {i : Nat} {t : Thread} (h : ts[i]? = some t) :
    t ∈ ts := by
  rcases List.getElem?_eq_some.mp h with ⟨hlt, heq⟩
  exact heq ▸ List.getElem_mem hlt

lemma countSW_nonneg (ts : List Thread) : 0 ≤ countSW ts := by
  induction ts with
  | nil => simp [countSW]
  | cons t ts ih =>
      by_cases h : isParked t <;> simp [countSW, h] <;> omega

lemma countSW_set {ts : List Thread} {i : Nat} {t : Thread} (t' : Thread)
    (h : ts[i]? = some t) :
    countSW (ts.set i t') + (if isParked t then 1 else 0)
      = countSW ts + (if isParked t' then 1 else 0) := by
  induction ts generalizing i with
  | nil => cases h
  | cons a ts ih =>
      cases i with
      | zero =>
          simp only [List.getElem?_cons_zero, Option.some.injEq] at h
          subst h
          simp only [List.set_cons_zero, countSW]
          ring
      | succ n =>
          simp only [List.getElem?_cons_succ] at h
          simp only [List.set_cons_succ, countSW]
          have := ih h
          omega

lemma countSW_pos {ts : List Thread} {t : Thread} (hm : t ∈ ts) (hp : isParked t = true) :
    1 ≤ countSW ts := by
  induction ts with
  | nil => cases hm
  | cons a ts ih =>
      rcases List.mem_cons.mp hm with h | h
      · subst h
        have := countSW_nonneg ts
        simp [countSW, hp]
        omega
      · have := ih h
        by_cases ha : isParked a <;> simp [countSW, ha] <;> omega

lemma countSW_two {ts : List Thread} {i j : Nat} {t u : Thread}
    (hij : i ≠ j) (hi : ts[i]? = some t) (hj : ts[j]? = some u)
    (hp : isParked t = true) (hq : isParked u = true) : 2 ≤ countSW ts := by
  induction ts generalizing i j with
  | nil => cases hi
  | cons a ts ih =>
      cases i with
      | zero =>
          cases j with
          | zero => exact absurd rfl hij
          | succ m =>
              simp only [List.getElem?_cons_zero, Option.some.injEq] at hi
              simp only [List.getElem?_cons_succ] at hj
              subst hi
              have h1 := countSW_pos (idx_mem hj) hq
              simp [countSW, hp]
              omega
      | succ n =>
          cases j with
          | zero =>
              simp only [List.getElem?_cons_zero, Option.some.injEq] at hj
              simp only [List.getElem?_cons_succ] at hi
              subst hj
              have h1 := countSW_pos (idx_mem hi) hp
              simp [countSW, hq]
              omega
          | succ m =>
              simp only [List.getElem?_cons_succ] at hi hj
              have hnm : n ≠ m := fun hh => hij (by omega)
              have := ih hnm hi hj
              by_cases ha : isParked a <;> simp [countSW, ha] <;> omega

lemma forall_mem_set {P : Thread → Prop} {ts : List Thread} {i : Nat} {t' : Thread}
    (h : ∀ t ∈ ts, P t) (h' : P t') : ∀ u ∈ ts.set i t', P u := by
  intro u hu
  rcases List.mem_or_eq_of_mem_set hu with h1 | h2
  · exact h u h1
  · exact h2 ▸ h'

lemma notifyOne_countSW {ts ts' : List Thread} (h : NotifyOne ts ts') :
    countSW ts' = countSW ts := by
  cases h with
  | wake i t ht hp =>
      have hc := countSW_set (wakeThread t) ht
      rw [isParked_sleeping hp, isParked_wake] at hc
      simp at hc
      omega
  | idle h => rfl

lemma notifyOne_forall {P : Thread → Prop} {ts ts' : List Thread}
    (hP : ∀ t, P t → t.phase = .sleeping → P (wakeThread t))
    (h : NotifyOne ts ts') (hall : ∀ t ∈ ts, P t) : ∀ t ∈ ts', P t := by
  cases h with
  | wake i t ht hp =>
      exact forall_mem_set hall (hP t (hall t (idx_mem ht)) hp)
  | idle h => exact hall

lemma wakeAllAct_countSW (ts : List Thread) : countSW (wakeAllAct ts) = countSW ts := by
  induction ts with
  | nil => rfl
  | cons t ts ih =>
      unfold wakeAllAct at ih ⊢
      rw [List.map_cons]
      by_cases hp : t.phase = Phase.sleeping
      · rw [if_pos hp]
        simp only [countSW]
        rw [ih, isParked_wake, isParked_sleeping hp]
      · rw [if_neg hp]
        simp only [countSW]
        rw [ih]

lemma wakeAllAct_forall {P : Thread → Prop} {ts : List Thread}
    (hP : ∀ t, P t → t.phase = .sleeping → P (wakeThread t))
    (hall : ∀ t ∈ ts, P t) : ∀ t ∈ wakeAllAct ts, P t := by
  intro t ht
  rcases List.mem_map.mp ht with ⟨u, hu, heq⟩
  by_cases hp : u.phase = Phase.sleeping
  · rw [← heq]
    simp only [hp, if_true]
    exact hP u (hall u hu) hp
  · rw [← heq]
    simp only [hp, if_false]
    exact hall u hu

lemma wakeAllAct_no_sleeping (ts : List Thread) :
    ∀ t ∈ wakeAllAct ts, t.phase ≠ .sleeping := by
  intro t ht
  rcases List.mem_map.mp ht with ⟨u, hu, heq⟩
  by_cases hp : u.phase = Phase.sleeping <;> rw [← heq] <;>
    simp [hp, wakeThread]

lemma notifyCmd_countSW {c : WakeCmd} {ts ts' : List Thread} (h : NotifyCmd c ts ts') :
    countSW ts' = countSW ts := by
  cases h with
  | one h => exact notifyOne_countSW h
  | all => exact wakeAllAct_countSW ts

lemma notifyCmd_forall {P : Thread → Prop} {c : WakeCmd} {ts ts' : List Thread}
    (hP : ∀ t, P t → t.phase = .sleeping → P (wakeThread t))
    (h : NotifyCmd c ts ts') (hall : ∀ t ∈ ts, P t) : ∀ t ∈ ts', P t := by
  cases h with
  | one h => exact notifyOne_forall hP h hall
  | all => exact wakeAllAct_forall hP hall

lemma notifyList_countSW {cs : List WakeCmd} {ts ts' : List Thread}
    (h : NotifyList cs ts ts') : countSW ts' = countSW ts := by
  induction h with
  | nil ts => rfl
  | cons h hrest ih => rw [ih, notifyCmd_countSW h]

lemma notifyList_forall {P : Thread → Prop} {cs : List WakeCmd} {ts ts' : List Thread}
    (hP : ∀ t, P t → t.phase = .sleeping → P (wakeThread t))
    (h : NotifyList cs ts ts') (hall : ∀ t ∈ ts, P t) : ∀ t ∈ ts', P t := by
  induction h with
  | nil ts => exact hall
  | cons h hrest ih => exact ih (notifyCmd_forall hP h hall)

lemma maybeNotify_countSW {b : Bool} {ts ts' : List Thread} (h : MaybeNotify b ts ts') :
    countSW ts' = countSW ts := by
  cases h with
  | no => rfl
  | yes h => exact notifyOne_countSW h

lemma maybeNotify_forall {P : Thread → Prop} {b : Bool} {ts ts' : List Thread}
    (hP : ∀ t, P t → t.phase = .sleeping → P (wakeThread t))
    (h : MaybeNotify b ts ts') (hall : ∀ t ∈ ts, P t) : ∀ t ∈ ts', P t := by
  cases h with
  | no => exact hall
  | yes h => exact notifyOne_forall hP h hall

lemma threadInv_wake : ∀ t : Thread, ThreadInv t → t.phase = .sleeping →
    ThreadInv (wakeThread t) := by
  intro t hti hp
  obtain ⟨h1, h2, h3, h4⟩ := hti
  refine ⟨?_, ?_, ?_, ?_⟩ <;> simp only [wakeThread]
  · intro h; cases h
  · intro _; exact h2 (Or.inl hp)
  · intro d h; cases h
  · exact h4

lemma step_countSW {p : Policy} {s : SysState} {l : Label} {s' : SysState}
    (h : Step p s l s') (hw : s.numWaiters = countSW s.threads) :
    s'.numWaiters = countSW s'.threads := by
  cases h with
  | increment => exact hw
  | add n => exact hw
  | decrement ts' h =>
      dsimp only
      rw [notifyList_countSW h]
      exact hw
  | subtract n ts' h =>
      dsimp only
      rw [notifyList_countSW h]
      exact hw
  | enterPark i t ht hp hc =>
      have hc' := countSW_set (⟨t.kind, .sleeping, t.sleeps + 1⟩ : Thread) ht
      simp [isParked, hp] at hc'
      dsimp only
      omega
  | enterReturn i t ts' ht hp hc hrel =>
      have hc' := countSW_set (⟨t.kind, .done false, t.sleeps⟩ : Thread) ht
      simp [isParked, hp] at hc'
      dsimp only
      rw [maybeNotify_countSW hrel]
      omega
  | spuriousWake i t ht hp =>
      have hc' := countSW_set (wakeThread t) ht
      rw [isParked_sleeping hp, isParked_wake] at hc'
      simp at hc'
      dsimp only
      omega
  | wokenRepark i t ht hp hk hc =>
      have hc' := countSW_set (⟨t.kind, .sleeping, t.sleeps + 1⟩ : Thread) ht
      simp [isParked, hp] at hc'
      dsimp only
      omega
  | wokenReturn i t ts' ht hp hk hrel =>
      have hc' := countSW_set (⟨t.kind, .done true, t.sleeps⟩ : Thread) ht
      simp [isParked, hp] at hc'
      dsimp only
      rw [maybeNotify_countSW hrel]
      omega

lemma step_threadInv {p : Policy} {s : SysState} {l : Label} {s' : SysState}
    (h : Step p s l s') (hall : ∀ t ∈ s.threads, ThreadInv t) :
    ∀ t ∈ s'.threads, ThreadInv t := by
  cases h with
  | increment => exact hall
  | add n => exact hall
  | decrement ts' h => exact notifyList_forall threadInv_wake h hall
  | subtract n ts' h => exact notifyList_forall threadInv_wake h hall
  | enterPark i t ht hp hc =>
      have hti := hall t (idx_mem ht)
      have hs0 : t.sleeps = 0 := hti.1 hp
      apply forall_mem_set hall
      unfold ThreadInv
      refine ⟨?_, ?_, ?_, ?_⟩ <;> dsimp only
      · intro h; cases h
      · intro _; omega
      · intro d h; cases h
      · intro _; omega
  | enterReturn i t ts' ht hp hc hrel =>
      have hti := hall t (idx_mem ht)
      have hs0 : t.sleeps = 0 := hti.1 hp
      apply maybeNotify_forall threadInv_wake hrel
      apply forall_mem_set hall
      unfold ThreadInv
      refine ⟨?_, ?_, ?_, ?_⟩ <;> dsimp only
      · intro h; cases h
      · intro h; rcases h with h | h <;> cases h
      · intro d h
        cases h
        simp [hs0]
      · intro _; omega
  | spuriousWake i t ht hp =>
      exact forall_mem_set hall (threadInv_wake t (hall t (idx_mem ht)) hp)
  | wokenRepark i t ht hp hk hc =>
      apply forall_mem_set hall
      unfold ThreadInv
      refine ⟨?_, ?_, ?_, ?_⟩ <;> dsimp only
      · intro h; cases h
      · intro _; omega
      · intro d h; cases h
      · intro hk'
        rw [hk] at hk'
        cases hk'
  | wokenReturn i t ts' ht hp hk hrel =>
      have hti := hall t (idx_mem ht)
      have hs1 : 0 < t.sleeps := hti.2.1 (Or.inr hp)
      apply maybeNotify_forall threadInv_wake hrel
      apply forall_mem_set hall
      unfold ThreadInv
      refine ⟨?_, ?_, ?_, ?_⟩ <;> dsimp only
      · intro h; cases h
      · intro h; rcases h with h | h <;> cases h
      · intro d h
        cases h
        simp [hs1]
      · intro _
        exact hti.2.2.2 (by assumption)

lemma step_inv {p : Policy} {s : SysState} {l : Label} {s' : SysState}
    (h : Step p s l s') (hi : Inv s) : Inv s' :=
  ⟨step_countSW h hi.1, step_threadInv h hi.2⟩

lemma init_inv (ks : List WaitKind) : Inv (initState ks) := by
  constructor
  · dsimp only [initState]
    induction ks with
    | nil => rfl
    | cons k ks ih => simpa [countSW, isParked, initThread] using ih
  · intro t ht
    rcases List.mem_map.mp ht with ⟨k, _, heq⟩
    rw [← heq]
    unfold ThreadInv initThread
    refine ⟨?_, ?_, ?_, ?_⟩ <;> dsimp only
    · intro _; rfl
    · intro h; rcases h with h | h <;> cases h
    · intro d h; cases h
    · intro _; omega

lemma reach_inv {p : Policy} {s : SysState} (h : Reach p s) : Inv s := by
  induction h with
  | init ks => exact init_inv ks
  | step s l s' hr hs ih => exact step_inv hs ih

lemma findSleeping_some {ts : List Thread} :
    ∀ {i : Nat}, findSleeping ts = some i →
      ∃ t, ts[i]? = some t ∧ t.phase = .sleeping := by
  induction ts with
  | nil => intro i h; cases h
  | cons a ts ih =>
      intro i h
      unfold findSleeping at h
      by_cases hp : a.phase = Phase.sleeping
      · rw [if_pos hp] at h
        cases h
        exact ⟨a, by simp, hp⟩
      · rw [if_neg hp] at h
        cases hf : findSleeping ts with
        | none => rw [hf] at h; cases h
        | some j =>
            rw [hf] at h
            simp at h
            obtain ⟨t, ht, htp⟩ := ih hf
            subst h
            exact ⟨t, by simpa [List.getElem?_cons_succ] using ht, htp⟩

lemma findSleeping_none {ts : List Thread} (h : findSleeping ts = none) :
    ∀ t ∈ ts, t.phase ≠ .sleeping := by
  induction ts with
  | nil => intro t ht; cases ht
  | cons a ts ih =>
      intro t ht
      unfold findSleeping at h
      by_cases hp : a.phase = Phase.sleeping
      · rw [if_pos hp] at h; cases h
      · rw [if_neg hp] at h
        rcases List.mem_cons.mp ht with h1 | h1
        · exact h1 ▸ hp
        · cases hf : findSleeping ts with
          | none => exact ih hf t h1
          | some j => rw [hf] at h; cases h

lemma notifyOneFn_eq_set {ts : List Thread} {i : Nat} {t : Thread}
    (hf : findSleeping ts = some i) (ht : ts[i]? = some t) :
    notifyOneFn ts = ts.set i (wakeThread t) := by
  unfold notifyOneFn
  rw [hf]
  dsimp only
  rw [ht]

lemma notifyOneFn_eq_id {ts : List Thread} (hf : findSleeping ts = none) :
    notifyOneFn ts = ts := by
  unfold notifyOneFn
  rw [hf]

lemma notifyOne_fn (ts : List Thread) : NotifyOne ts (notifyOneFn ts) := by
  cases hf : findSleeping ts with
  | none =>
      rw [notifyOneFn_eq_id hf]
      exact NotifyOne.idle ts (findSleeping_none hf)
  | some i =>
      obtain ⟨t, ht, hp⟩ := findSleeping_some hf
      rw [notifyOneFn_eq_set hf ht]
      exact NotifyOne.wake ts i t ht hp

lemma notifyOneFn_woken {ts : List Thread} {u : Thread}
    (hu : u ∈ ts) (hs : u.phase = .sleeping) :
    ∃ t ∈ notifyOneFn ts, t.phase = .woken := by
  cases hf : findSleeping ts with
  | none => exact absurd hs (findSleeping_none hf u hu)
  | some i =>
      obtain ⟨t, ht, hp⟩ := findSleeping_some hf
      have hmem : wakeThread t ∈ ts.set i (wakeThread t) :=
        idx_mem (List.getElem?_set_self (idx_lt ht))
      rw [notifyOneFn_eq_set hf ht]
      exact ⟨wakeThread t, hmem, rfl⟩

lemma sleeping_of_mem_set {ts : List Thread} {i : Nat} {t' u : Thread}
    (hu : u ∈ ts.set i t') (hs : u.phase = .sleeping)
    (ht' : t'.phase ≠ .sleeping) : u ∈ ts := by
  rcases List.mem_or_eq_of_mem_set hu with h | h
  · exact h
  · exact absurd (h ▸ hs) ht'

lemma sleeping_of_notifyOneFn {ts : List Thread} {u : Thread}
    (hu : u ∈ notifyOneFn ts) (hs : u.phase = .sleeping) : u ∈ ts := by
  cases hf : findSleeping ts with
  | none => rwa [notifyOneFn_eq_id hf] at hu
  | some i =>
      obtain ⟨t, ht, hp⟩ := findSleeping_some hf
      rw [notifyOneFn_eq_set hf ht] at hu
      refine sleeping_of_mem_set hu hs ?_
      simp [wakeThread]

lemma maybeNotify_relayFn (b : Bool) (ts : List Thread) :
    MaybeNotify b ts (relayFn b ts) := by
  cases b with
  | false => simpa [relayFn] using MaybeNotify.no ts
  | true => simpa [relayFn] using MaybeNotify.yes (notifyOne_fn ts)

lemma notifyList_trigger (p : Policy) (ts : List Thread) :
    NotifyList [wakeOf p] ts (triggerFn p ts) := by
  cases p with
  | wakeOne =>
      exact NotifyList.cons (NotifyCmd.one (notifyOne_fn ts)) (NotifyList.nil _)
  | wakeAll =>
      exact NotifyList.cons (NotifyCmd.all ts) (NotifyList.nil _)

lemma notDoneCount_set {ts : List Thread} {i : Nat} {t : Thread} (t' : Thread)
    (h : ts[i]? = some t) :
    notDoneCount (ts.set i t') + (if isDone t.phase then 0 else 1)
      = notDoneCount ts + (if isDone t'.phase then 0 else 1) := by
  induction ts generalizing i with
  | nil => cases h
  | cons a ts ih =>
      cases i with
      | zero =>
          simp only [List.getElem?_cons_zero, Option.some.injEq] at h
          subst h
          simp only [List.set_cons_zero, notDoneCount]
          omega
      | succ n =>
          simp only [List.getElem?_cons_succ] at h
          simp only [List.set_cons_succ, notDoneCount]
          have := ih h
          omega

lemma notifyOne_notDone {ts ts' : List Thread} (h : NotifyOne ts ts') :
    notDoneCount ts' = notDoneCount ts := by
  cases h with
  | wake i t ht hp =>
      have hc := notDoneCount_set (wakeThread t) ht
      have h1 : isDone t.phase = false := by rw [hp]; rfl
      have h2 : isDone (wakeThread t).phase = false := rfl
      rw [h1, h2] at hc
      simpa using hc
  | idle h => rfl

lemma relayFn_notDone (b : Bool) (ts : List Thread) :
    notDoneCount (relayFn b ts) = notDoneCount ts := by
  cases b with
  | false => rfl
  | true => simpa [relayFn] using notifyOne_notDone (notifyOne_fn ts)

lemma allDone_of_zero {ts : List Thread} (h : notDoneCount ts = 0) :
    ∀ t ∈ ts, isDone t.phase = true := by
  induction ts with
  | nil => intro t ht; cases ht
  | cons a ts ih =>
      intro t ht
      unfold notDoneCount at h
      rcases List.mem_cons.mp ht with h1 | h1
      · subst h1
        by_cases hd : isDone t.phase
        · exact hd
        · rw [if_neg hd] at h; omega
      · refine ih ?_ t h1
        omega

lemma relayFn_true (ts : List Thread) : relayFn true ts = notifyOneFn ts := by
  simp [relayFn]

lemma relayFn_false (ts : List Thread) : relayFn false ts = ts := by
  simp [relayFn]

lemma relayFn_forall (P : Thread → Prop)
    (hP : ∀ t, P t → t.phase = .sleeping → P (wakeThread t))
    (b : Bool) (ts : List Thread) (hall : ∀ t ∈ ts, P t) :
    ∀ t ∈ relayFn b ts, P t := by
  cases b with
  | false => rw [relayFn_false]; exact hall
  | true => rw [relayFn_true]; exact notifyOne_forall hP (notifyOne_fn ts) hall

lemma relayB_true {p : Policy} {w : Int} (h : relayB p w = true) :
    p = .wakeOne ∧ 0 < w := by
  cases p with
  | wakeOne => exact ⟨rfl, of_decide_eq_true h⟩
  | wakeAll => cases h

lemma notDone_exists {ts : List Thread} (h : notDoneCount ts ≠ 0) :
    ∃ t ∈ ts, isDone t.phase = false := by
  induction ts with
  | nil => exact absurd rfl h
  | cons a ts ih =>
      unfold notDoneCount at h
      by_cases hd : isDone a.phase
      · rw [if_pos hd] at h
        simp only [Nat.zero_add] at h
        obtain ⟨t, ht, htd⟩ := ih h
        exact ⟨t, List.mem_cons_of_mem a ht, htd⟩
      · exact ⟨a, List.mem_cons_self a ts, by simpa using hd⟩

lemma drain {p : Policy} :
    ∀ (n : Nat) (s : SysState),
      notDoneCount s.threads = n →
      s.counter ≤ 0 →
      s.numWaiters = countSW s.threads →
      (∀ t ∈ s.threads, t.kind = .untilZero) →
      (∀ t ∈ s.threads, t.phase ≠ .ready) →
      ((∃ t ∈ s.threads, t.phase = .sleeping) →
        p = .wakeOne ∧ ∃ t ∈ s.threads, t.phase = .woken) →
      ∃ s', WaitSteps p s s' ∧ AllDone s' := by
  intro n
  induction n with
  | zero =>
      intro s hn hc hw hk hr hwake
      exact ⟨s, WaitSteps.refl s, fun t ht => allDone_of_zero hn t ht⟩
  | succ m ih =>
      intro s hn hc hw hk hr hwake
      have hne : notDoneCount s.threads ≠ 0 := by omega
      obtain ⟨t0, ht0, ht0d⟩ := notDone_exists hne
      have hwoken : ∃ t ∈ s.threads, t.phase = .woken := by
        cases hph : t0.phase with
        | ready => exact absurd hph (hr t0 ht0)
        | sleeping => exact (hwake ⟨t0, ht0, hph⟩).2
        | woken => exact ⟨t0, ht0, hph⟩
        | done d => rw [hph] at ht0d; cases ht0d
      obtain ⟨t, htmem, htw⟩ := hwoken
      obtain ⟨i, hti⟩ := List.mem_iff_getElem?.mp htmem
      have hstep := Step.wokenReturn (p := p) s i t
        (relayFn (relayB p (s.numWaiters - 1))
          (s.threads.set i ⟨t.kind, Phase.done true, t.sleeps⟩))
        hti htw (Or.inr hc) (maybeNotify_relayFn _ _)
      have hd1 : isDone t.phase = false := by rw [htw]; rfl
      have hnd := notDoneCount_set (⟨t.kind, Phase.done true, t.sleeps⟩ : Thread) hti
      rw [hd1] at hnd
      have hnd1 : notDoneCount
          (s.threads.set i ⟨t.kind, Phase.done true, t.sleeps⟩) = m := by
        simp only [isDone] at hnd
        simp at hnd
        omega
      have hnd2 : notDoneCount
          (relayFn (relayB p (s.numWaiters - 1))
            (s.threads.set i ⟨t.kind, Phase.done true, t.sleeps⟩)) = m := by
        rw [relayFn_notDone]
        exact hnd1
      have hkt : t.kind = .untilZero := hk t htmem
      have hkind2 : ∀ u ∈ relayFn (relayB p (s.numWaiters - 1))
          (s.threads.set i ⟨t.kind, Phase.done true, t.sleeps⟩),
          u.kind = .untilZero := by
        apply relayFn_forall (fun u => u.kind = WaitKind.untilZero)
          (fun u hu _ => by simpa [wakeThread] using hu)
        apply forall_mem_set hk
        exact hkt
      have hready2 : ∀ u ∈ relayFn (relayB p (s.numWaiters - 1))
          (s.threads.set i ⟨t.kind, Phase.done true, t.sleeps⟩),
          u.phase ≠ .ready := by
        apply relayFn_forall (fun u => u.phase ≠ Phase.ready)
          (fun u _ _ => by simp [wakeThread])
        apply forall_mem_set hr
        simp
      have hwake2 : (∃ u ∈ relayFn (relayB p (s.numWaiters - 1))
            (s.threads.set i ⟨t.kind, Phase.done true, t.sleeps⟩),
            u.phase = .sleeping) →
          p = .wakeOne ∧ ∃ u ∈ relayFn (relayB p (s.numWaiters - 1))
            (s.threads.set i ⟨t.kind, Phase.done true, t.sleeps⟩),
            u.phase = .woken := by
        intro hex
        obtain ⟨u, hu2, hus⟩ := hex
        by_cases hrl : relayB p (s.numWaiters - 1) = true
        · rw [hrl, relayFn_true] at hu2 ⊢
          have hu1 : u ∈ s.threads.set i ⟨t.kind, Phase.done true, t.sleeps⟩ :=
            sleeping_of_notifyOneFn hu2 hus
          exact ⟨(relayB_true hrl).1, notifyOneFn_woken hu1 hus⟩
        · exfalso
          rw [Bool.not_eq_true] at hrl
          rw [hrl, relayFn_false] at hu2
          have hu0 : u ∈ s.threads := by
            refine sleeping_of_mem_set hu2 hus ?_
            simp
          obtain ⟨j, htj⟩ := List.mem_iff_getElem?.mp hu0
          have hij : i ≠ j := by
            intro hij
            rw [← hij, hti] at htj
            cases htj
            rw [htw] at hus
            cases hus
          have h2 : 2 ≤ countSW s.threads :=
            countSW_two hij hti htj (isParked_woken htw) (isParked_sleeping hus)
          have hp1 : p = .wakeOne := (hwake ⟨u, hu0, hus⟩).1
          rw [hp1] at hrl
          simp only [relayB, decide_eq_false_iff_not, not_lt] at hrl
          omega
      obtain ⟨s', hsteps, hdone⟩ :=
        ih ⟨s.counter, s.numWaiters - 1,
          relayFn (relayB p (s.numWaiters - 1))
            (s.threads.set i ⟨t.kind, Phase.done true, t.sleeps⟩)⟩
          hnd2 hc (step_countSW hstep hw) hkind2 hready2 hwake2
      exact ⟨s', WaitSteps.cons hstep rfl hsteps, hdone⟩

lemma relayB_iff (w : Int) : relayB .wakeOne w = true ↔ 0 < w := by
  simp [relayB]

lemma triggerFn_forall (P : Thread → Prop)
    (hP : ∀ t, P t → t.phase = .sleeping → P (wakeThread t))
    (p : Policy) (ts : List Thread) (hall : ∀ t ∈ ts, P t) :
    ∀ t ∈ triggerFn p ts, P t := by
  cases p with
  | wakeOne => exact notifyOne_forall hP (notifyOne_fn ts) hall
  | wakeAll => exact wakeAllAct_forall hP hall

lemma step_wait_counter {p : Policy} {s : SysState} {l : Label} {s' : SysState}
    (h : Step p s l s') (hl : isWaitLabel l = true) : s'.counter = s.counter := by
  cases h with
  | increment => cases hl
  | add n => cases hl
  | decrement ts' h => cases hl
  | subtract n ts' h => cases hl
  | enterPark i t ht hp hc => rfl
  | enterReturn i t ts' ht hp hc hrel => rfl
  | spuriousWake i t ht hp => rfl
  | wokenRepark i t ht hp hk hc => rfl
  | wokenReturn i t ts' ht hp hk hrel => rfl

lemma runMuts_counter (p : Policy) (g : Gate) (ops : List MutOp) :
    (runMuts p g ops).counter = g.counter + (ops.map mutDelta).sum := by
  induction ops generalizing g with
  | nil => simp [runMuts]
  | cons op ops ih =>
      have hstep : runMuts p g (op :: ops) = runMuts p (applyMut p g op) ops := rfl
      have hone : (applyMut p g op).counter = g.counter + mutDelta op := by
        cases op <;>
          simp [applyMut, Increment, Decrement, Add, Subtract, mutDelta] <;> ring
      rw [hstep, ih, hone, List.map_cons, List.sum_cons]
      ring

/-- C3: `Decrement` returns the old counter minus 1 and `Subtract(n)` the
old counter minus `n`; each issues a notify call if and only if the new
value is ≤ 0; both are total, so they may run with the counter already
≤ 0 and simply drive it more negative.  The same holds for the labelled
transition system. -/
theorem decrement_subtract_spec (p : Policy) (g : Gate) (n : Int) :
    ((Decrement p g).2.1 = g.counter - 1 ∧
      (Decrement p g).1.counter = g.counter - 1 ∧
      ((Decrement p g).2.2 ≠ [] ↔ g.counter - 1 ≤ 0)) ∧
    ((Subtract p g n).2.1 = g.counter - n ∧
      (Subtract p g n).1.counter = g.counter - n ∧
      ((Subtract p g n).2.2 ≠ [] ↔ g.counter - n ≤ 0)) ∧
    (∀ (s : SysState) (ret : Int) (w : Bool) (s' : SysState),
      Step p s (.decrement ret w) s' →
        ret = s.counter - 1 ∧ s'.counter = s.counter - 1 ∧
          (w = true ↔ s.counter - 1 ≤ 0)) ∧
    (∀ (s : SysState) (ret : Int) (w : Bool) (s' : SysState),
      Step p s (.subtract n ret w) s' →
        ret = s.counter - n ∧ s'.counter = s.counter - n ∧
          (w = true ↔ s.counter - n ≤ 0)) := by
  refine ⟨⟨rfl, rfl, ?_⟩, ⟨rfl, rfl, ?_⟩, ?_, ?_⟩
  · by_cases h : g.counter - 1 ≤ 0 <;> simp [Decrement, h]
  · by_cases h : g.counter - n ≤ 0 <;> simp [Subtract, h]
  · intro s ret w s' hst
    cases hst with
    | decrement ts' h => exact ⟨rfl, rfl, by simp⟩
  · intro s ret w s' hst
    cases hst with
    | subtract ts' h => exact ⟨rfl, rfl, by simp⟩

/-- C3 witness: the labelled-transition hypotheses are satisfiable — a
concrete `Decrement` step from counter 1. -/
theorem decrement_subtract_spec_witness :
    ((1 : Int) - 1 = (1 : Int) - 1 ∧
      (1 : Int) - 1 = (1 : Int) - 1 ∧
      (decide ((1 : Int) - 1 ≤ 0) = true ↔ (1 : Int) - 1 ≤ 0)) := by
  have hnl : NotifyList (if (1 : Int) - 1 ≤ 0 then [wakeOf Policy.wakeOne] else [])
      ([] : List Thread) ([] : List Thread) := by
    have hif : (if (1 : Int) - 1 ≤ 0 then [wakeOf Policy.wakeOne] else [])
        = [WakeCmd.one] := by norm_num [wakeOf]
    rw [hif]
    exact NotifyList.cons (NotifyCmd.one (NotifyOne.idle [] (by intro t ht; cases ht)))
      (NotifyList.nil [])
  have hstep := Step.decrement (p := Policy.wakeOne) ⟨1, 0, []⟩ [] hnl
  exact (decrement_subtract_spec Policy.wakeOne ⟨1, 0⟩ 0).2.2.1
    ⟨1, 0, []⟩ ((1 : Int) - 1) (decide ((1 : Int) - 1 ≤ 0)) ⟨(1 : Int) - 1, 0, []⟩ hstep

/-- C6 counterexample: `Add(-2)` on a gate with counter 1 drives the
counter to -1 ≤ 0, yet makes no notify call at all — contrary to the
claim that such an `Add` triggers the wake policy like `Decrement` and
`Subtract` do. -/
theorem add_counterexample :
    (Add ⟨1, 1⟩ (-2)).1.counter = -1 ∧ (Add ⟨1, 1⟩ (-2)).1.counter ≤ 0 ∧
      (Add ⟨1, 1⟩ (-2)).2.2 = [] := by decide

/-- C6 amended: `Add` never triggers the wake policy — even an `Add`
with negative `n` that drives the counter to ≤ 0 makes no notify call
and leaves the waiting threads untouched; only `Decrement` and
`Subtract` issue wakes. -/
theorem add_never_wakes (p : Policy) (g : Gate) (n : Int) :
    (Add g n).2.2 = [] ∧
    (∀ (s : SysState) (ret : Int) (s' : SysState),
      Step p s (.add n ret) s' → s'.threads = s.threads) := by
  refine ⟨rfl, ?_⟩
  intro s ret s' hst
  cases hst with
  | add n => rfl

/-- C6 witness: a concrete `Add(-2)` step over a sleeping waiter leaves
it sleeping. -/
theorem add_never_wakes_witness :
    (Add ⟨1, 0⟩ (-2)).2.2 = [] ∧
    (⟨(1 : Int) + (-2), 1, [⟨WaitKind.untilZero, Phase.sleeping, 1⟩]⟩ : SysState).threads
      = (⟨1, 1, [⟨WaitKind.untilZero, Phase.sleeping, 1⟩]⟩ : SysState).threads := by
  refine ⟨(add_never_wakes Policy.wakeOne ⟨1, 0⟩ (-2)).1, ?_⟩
  exact (add_never_wakes Policy.wakeOne ⟨1, 0⟩ (-2)).2
    ⟨1, 1, [⟨WaitKind.untilZero, Phase.sleeping, 1⟩]⟩ ((1 : Int) + (-2))
    ⟨(1 : Int) + (-2), 1, [⟨WaitKind.untilZero, Phase.sleeping, 1⟩]⟩
    (Step.add ⟨1, 1, [⟨WaitKind.untilZero, Phase.sleeping, 1⟩]⟩ (-2))

/-- C7: starting from the freshly constructed counter 0, a serialized
sequence of `Increment`/`Decrement`/`Add`/`Subtract` calls leaves the
counter at the net signed delta of the sequence, independently of the
serialization order. -/
theorem balance_spec (p : Policy) (w : Int) (ops ops' : List MutOp)
    (hperm : ops.Perm ops') :
    (runMuts p ⟨0, w⟩ ops).counter = (ops.map mutDelta).sum ∧
    (runMuts p ⟨0, w⟩ ops').counter = (runMuts p ⟨0, w⟩ ops).counter := by
  constructor
  · rw [runMuts_counter]; ring
  · rw [runMuts_counter, runMuts_counter, (hperm.map mutDelta).sum_eq]

/-- C7 witness: a concrete sequence and a permutation of it both end at
the same net delta. -/
theorem balance_spec_witness :
    (runMuts Policy.wakeOne ⟨0, 0⟩
        [MutOp.increment, MutOp.add 3, MutOp.decrement, MutOp.subtract 2]).counter
      = ([MutOp.increment, MutOp.add 3, MutOp.decrement, MutOp.subtract 2].map
          mutDelta).sum ∧
    (runMuts Policy.wakeOne ⟨0, 0⟩
        [MutOp.subtract 2, MutOp.increment, MutOp.decrement, MutOp.add 3]).counter
      = (runMuts Policy.wakeOne ⟨0, 0⟩
          [MutOp.increment, MutOp.add 3, MutOp.decrement, MutOp.subtract 2]).counter :=
  balance_spec Policy.wakeOne 0
    [MutOp.increment, MutOp.add 3, MutOp.decrement, MutOp.subtract 2]
    [MutOp.subtract 2, MutOp.increment, MutOp.decrement, MutOp.add 3]
    (by decide)

/-- C1: `WaitUntilZero` returns only when the counter is ≤ 0; a wake
delivered while the counter is still > 0 makes it re-enter the wait loop
(the re-park step exists and no return step exists); and on a reachable
state its returned `didWait` is true iff the thread slept at least
once. -/
theorem waitUntilZero_spec (p : Policy) (s : SysState) (i : Nat) (t : Thread)
    (ht : s.threads[i]? = some t) (hk : t.kind = .untilZero) :
    (∀ (d r : Bool) (s' : SysState), Step p s (.ret i d r) s' → s.counter ≤ 0) ∧
    (t.phase = .woken → 0 < s.counter →
      Step p s (.park i)
        ⟨s.counter, s.numWaiters - 1 + 1,
          s.threads.set i ⟨t.kind, .sleeping, t.sleeps + 1⟩⟩ ∧
      ∀ (d r : Bool) (s' : SysState), ¬ Step p s (.ret i d r) s') ∧
    (Reach p s → ∀ d : Bool, t.phase = .done d → (d = true ↔ 0 < t.sleeps)) := by
  refine ⟨?_, ?_, ?_⟩
  · intro d r s' hst
    cases hst with
    | enterReturn i2 t2 ts2 ht2 hp2 hc2 hrel2 => exact hc2
    | wokenReturn i2 t2 ts2 ht2 hp2 hk2 hrel2 =>
        have he : t2 = t := Option.some.inj (ht2.symm.trans ht)
        rw [he, hk] at hk2
        rcases hk2 with h1 | h1
        · cases h1
        · exact h1
  · intro hw hc
    constructor
    · exact Step.wokenRepark s i t ht hw hk hc
    · intro d r s' hst
      cases hst with
      | enterReturn i2 t2 ts2 ht2 hp2 hc2 hrel2 =>
          have he : t2 = t := Option.some.inj (ht2.symm.trans ht)
          rw [he, hw] at hp2
          cases hp2
      | wokenReturn i2 t2 ts2 ht2 hp2 hk2 hrel2 =>
          have he : t2 = t := Option.some.inj (ht2.symm.trans ht)
          rw [he, hk] at hk2
          rcases hk2 with h1 | h1
          · cases h1
          · omega
  · intro hreach d hd
    exact ((reach_inv hreach).2 t (idx_mem ht)).2.2.1 d hd

/-- C1 witness: the hypotheses of `waitUntilZero_spec` are satisfiable —
a return step from a drained gate, a re-park with counter 5, and a
completed wait on a reachable state. -/
theorem waitUntilZero_spec_witness :
    ((⟨0, 1, [⟨WaitKind.untilZero, Phase.woken, 1⟩]⟩ : SysState).counter ≤ 0) ∧
    (Step Policy.wakeOne ⟨5, 1, [⟨WaitKind.untilZero, Phase.woken, 1⟩]⟩ (.park 0)
        ⟨5, 1 - 1 + 1, [⟨WaitKind.untilZero, Phase.woken, 1⟩].set 0
          ⟨WaitKind.untilZero, Phase.sleeping, 1 + 1⟩⟩ ∧
      ∀ (d r : Bool) (s' : SysState),
        ¬ Step Policy.wakeOne ⟨5, 1, [⟨WaitKind.untilZero, Phase.woken, 1⟩]⟩
          (.ret 0 d r) s') ∧
    (false = true ↔ 0 < (0 : Nat)) := by
  refine ⟨?_, ?_, ?_⟩
  · exact (waitUntilZero_spec Policy.wakeOne
      ⟨0, 1, [⟨WaitKind.untilZero, Phase.woken, 1⟩]⟩ 0
      ⟨WaitKind.untilZero, Phase.woken, 1⟩ (by decide) rfl).1 true
      (relayB Policy.wakeOne ((1 : Int) - 1)) _
      (Step.wokenReturn _ 0 ⟨WaitKind.untilZero, Phase.woken, 1⟩ _ (by decide) rfl
        (Or.inr (by decide)) (maybeNotify_relayFn _ _))
  · exact (waitUntilZero_spec Policy.wakeOne
      ⟨5, 1, [⟨WaitKind.untilZero, Phase.woken, 1⟩]⟩ 0
      ⟨WaitKind.untilZero, Phase.woken, 1⟩ (by decide) rfl).2.1 rfl (by decide)
  · have hstep := Step.enterReturn (p := Policy.wakeOne)
      (initState [WaitKind.untilZero]) 0 (initThread WaitKind.untilZero) _
      (by decide) rfl (by decide) (maybeNotify_relayFn _ _)
    have hreach := Reach.step _ _ _ (Reach.init [WaitKind.untilZero]) hstep
    exact (waitUntilZero_spec Policy.wakeOne _ 0
      ⟨WaitKind.untilZero, Phase.done false, 0⟩ (by decide) rfl).2.2 hreach false rfl

/-- C2: with the counter already ≤ 0 at entry, either wait call (of
either kind) returns immediately with `didWait = false`: the
immediate-return step exists, no parking step exists, and no step can
return `didWait = true`. -/
theorem wait_drained_spec (p : Policy) (s : SysState) (i : Nat) (t : Thread)
    (ht : s.threads[i]? = some t) (hp : t.phase = .ready) (hc : s.counter ≤ 0) :
    (Step p s (.ret i false (relayB p s.numWaiters))
      ⟨s.counter, s.numWaiters,
        relayFn (relayB p s.numWaiters)
          (s.threads.set i ⟨t.kind, .done false, t.sleeps⟩)⟩) ∧
    (∀ s', ¬ Step p s (.park i) s') ∧
    (∀ (r : Bool) (s' : SysState), ¬ Step p s (.ret i true r) s') := by
  refine ⟨?_, ?_, ?_⟩
  · exact Step.enterReturn s i t _ ht hp hc (maybeNotify_relayFn _ _)
  · intro s' hst
    cases hst with
    | enterPark i2 t2 ht2 hp2 hc2 => omega
    | wokenRepark i2 t2 ht2 hp2 hk2 hc2 => omega
  · intro r s' hst
    cases hst with
    | wokenReturn i2 t2 ts2 ht2 hp2 hk2 hrel2 =>
        have he : t2 = t := Option.some.inj (ht2.symm.trans ht)
        rw [he, hp] at hp2
        cases hp2

/-- C2 witness: a drained gate with one thread about to call
`WaitOneWakeup`. -/
theorem wait_drained_spec_witness :
    (Step Policy.wakeOne ⟨0, 0, [⟨WaitKind.oneWakeup, Phase.ready, 0⟩]⟩
      (.ret 0 false (relayB Policy.wakeOne 0))
      ⟨0, 0, relayFn (relayB Policy.wakeOne 0)
        ([⟨WaitKind.oneWakeup, Phase.ready, 0⟩].set 0
          ⟨WaitKind.oneWakeup, Phase.done false, 0⟩)⟩) ∧
    (∀ s', ¬ Step Policy.wakeOne ⟨0, 0, [⟨WaitKind.oneWakeup, Phase.ready, 0⟩]⟩
      (.park 0) s') ∧
    (∀ (r : Bool) (s' : SysState),
      ¬ Step Policy.wakeOne ⟨0, 0, [⟨WaitKind.oneWakeup, Phase.ready, 0⟩]⟩
        (.ret 0 true r) s') :=
  wait_drained_spec Policy.wakeOne ⟨0, 0, [⟨WaitKind.oneWakeup, Phase.ready, 0⟩]⟩ 0
    ⟨WaitKind.oneWakeup, Phase.ready, 0⟩ (by decide) rfl (by decide)

/-- C4: on every exit from a wait call (either wait entry point, slept or
not), still under the lock, the exiting thread issues exactly one relay
notify iff `numWaiters` is positive at that moment (after its own
deregistration) — and only under the wake-one policy; under wake-all no
relay is ever issued. -/
theorem relay_wake_spec (p : Policy) (s : SysState) (i : Nat) (d r : Bool)
    (s' : SysState) (hst : Step p s (.ret i d r) s') :
    (p = .wakeOne → (r = true ↔ 0 < s'.numWaiters)) ∧
    (p = .wakeAll → r = false) := by
  cases hst with
  | enterReturn i2 t2 ts2 ht2 hp2 hc2 hrel2 =>
      constructor
      · intro hp1
        subst hp1
        exact relayB_iff s.numWaiters
      · intro hp1
        subst hp1
        rfl
  | wokenReturn i2 t2 ts2 ht2 hp2 hk2 hrel2 =>
      constructor
      · intro hp1
        subst hp1
        exact relayB_iff (s.numWaiters - 1)
      · intro hp1
        subst hp1
        rfl

/-- C4 witness: an immediate return over a gate that still has one other
registered waiter relays one wake. -/
theorem relay_wake_spec_witness :
    (Policy.wakeOne = Policy.wakeOne →
      (relayB Policy.wakeOne 1 = true ↔ 0 < (1 : Int))) ∧
    (Policy.wakeOne = Policy.wakeAll → relayB Policy.wakeOne 1 = false) :=
  relay_wake_spec Policy.wakeOne
    ⟨0, 1, [⟨WaitKind.untilZero, Phase.ready, 0⟩,
      ⟨WaitKind.untilZero, Phase.sleeping, 1⟩]⟩ 0 false
    (relayB Policy.wakeOne 1) _
    (Step.enterReturn _ 0 ⟨WaitKind.untilZero, Phase.ready, 0⟩ _ (by decide) rfl
      (by decide) (maybeNotify_relayFn _ _))

/-- C5: a `WaitOneWakeup` thread that finds counter > 0 parks; once woken
it returns `didWait = true` without re-checking the counter (the return
step exists with any counter value and no re-park step exists); and on
any reachable state such a thread has entered the sleep at most once. -/
theorem waitOneWakeup_spec (p : Policy) (s : SysState) (i : Nat) (t : Thread)
    (ht : s.threads[i]? = some t) (hk : t.kind = .oneWakeup) :
    (t.phase = .ready → 0 < s.counter →
      Step p s (.park i)
        ⟨s.counter, s.numWaiters + 1,
          s.threads.set i ⟨t.kind, .sleeping, t.sleeps + 1⟩⟩) ∧
    (t.phase = .woken →
      Step p s (.ret i true (relayB p (s.numWaiters - 1)))
        ⟨s.counter, s.numWaiters - 1,
          relayFn (relayB p (s.numWaiters - 1))
            (s.threads.set i ⟨t.kind, .done true, t.sleeps⟩)⟩ ∧
      ∀ s', ¬ Step p s (.park i) s') ∧
    (Reach p s → t.sleeps ≤ 1) := by
  refine ⟨?_, ?_, ?_⟩
  · intro hp hc
    exact Step.enterPark s i t ht hp hc
  · intro hw
    constructor
    · exact Step.wokenReturn s i t _ ht hw (Or.inl hk) (maybeNotify_relayFn _ _)
    · intro s' hst
      cases hst with
      | enterPark i2 t2 ht2 hp2 hc2 =>
          have he : t2 = t := Option.some.inj (ht2.symm.trans ht)
          rw [he, hw] at hp2
          cases hp2
      | wokenRepark i2 t2 ht2 hp2 hk2 hc2 =>
          have he : t2 = t := Option.some.inj (ht2.symm.trans ht)
          rw [he, hk] at hk2
          cases hk2
  · intro hreach
    exact ((reach_inv hreach).2 t (idx_mem ht)).2.2.2 hk

/-- C5 witness: with counter 7 a `WaitOneWakeup` thread parks from entry,
and once woken it returns even though the counter is still 7. -/
theorem waitOneWakeup_spec_witness :
    (Step Policy.wakeOne ⟨7, 0, [⟨WaitKind.oneWakeup, Phase.ready, 0⟩]⟩ (.park 0)
      ⟨7, 0 + 1, [⟨WaitKind.oneWakeup, Phase.ready, 0⟩].set 0
        ⟨WaitKind.oneWakeup, Phase.sleeping, 0 + 1⟩⟩) ∧
    (Step Policy.wakeOne ⟨7, 1, [⟨WaitKind.oneWakeup, Phase.woken, 1⟩]⟩
      (.ret 0 true (relayB Policy.wakeOne ((1 : Int) - 1)))
      ⟨7, (1 : Int) - 1,
        relayFn (relayB Policy.wakeOne ((1 : Int) - 1))
          ([⟨WaitKind.oneWakeup, Phase.woken, 1⟩].set 0
            ⟨WaitKind.oneWakeup, Phase.done true, 1⟩)⟩ ∧
      ∀ s', ¬ Step Policy.wakeOne ⟨7, 1, [⟨WaitKind.oneWakeup, Phase.woken, 1⟩]⟩
        (.park 0) s') ∧
    ((0 : Nat) ≤ 1) := by
  refine ⟨?_, ?_, ?_⟩
  · exact (waitOneWakeup_spec Policy.wakeOne _ 0 ⟨WaitKind.oneWakeup, Phase.ready, 0⟩
      (by decide) rfl).1 rfl (by decide)
  · exact (waitOneWakeup_spec Policy.wakeOne _ 0 ⟨WaitKind.oneWakeup, Phase.woken, 1⟩
      (by decide) rfl).2.1 rfl
  · exact (waitOneWakeup_spec Policy.wakeOne (initState [WaitKind.oneWakeup]) 0
      ⟨WaitKind.oneWakeup, Phase.ready, 0⟩ (by decide) rfl).2.2
      (Reach.init [WaitKind.oneWakeup])

/-- C10: the wait operations never modify the counter — every wait-side
step, and hence every finite sequence of wait-side steps, leaves the
counter exactly as the mutating operations left it. -/
theorem wait_frame_spec (p : Policy) :
    (∀ (s : SysState) (l : Label) (s' : SysState),
      Step p s l s' → isWaitLabel l = true → s'.counter = s.counter) ∧
    (∀ (s s' : SysState), WaitSteps p s s' → s'.counter = s.counter) := by
  constructor
  · intro s l s' h hl
    exact step_wait_counter h hl
  · intro s s' h
    induction h with
    | refl s => rfl
    | cons hst hl hrest ih => rw [ih, step_wait_counter hst hl]

/-- C10 witness: a concrete spurious-wake step and a one-step wait
sequence both leave the counter at 3. -/
theorem wait_frame_spec_witness : ((3 : Int) = 3) ∧ ((3 : Int) = 3) := by
  constructor
  · exact (wait_frame_spec Policy.wakeOne).1
      ⟨3, 1, [⟨WaitKind.untilZero, Phase.sleeping, 1⟩]⟩ (.spurious 0)
      ⟨3, 1, [⟨WaitKind.untilZero, Phase.sleeping, 1⟩].set 0
        (wakeThread ⟨WaitKind.untilZero, Phase.sleeping, 1⟩)⟩
      (Step.spuriousWake _ 0 ⟨WaitKind.untilZero, Phase.sleeping, 1⟩ (by decide) rfl)
      rfl
  · exact (wait_frame_spec Policy.wakeOne).2 _ _
      (WaitSteps.cons
        (Step.spuriousWake ⟨3, 1, [⟨WaitKind.untilZero, Phase.sleeping, 1⟩]⟩ 0
          ⟨WaitKind.untilZero, Phase.sleeping, 1⟩ (by decide) rfl)
        rfl (WaitSteps.refl _))

/-- C8: `numWaiters` starts at 0 and on every reachable state it is ≥ 0,
equal to the number of threads inside their park/unpark window (so every
completed wait has restored it to its entry value); the only steps that
change it are a park from entry (+1) and a woken exit (-1): mutators and
spurious wakes leave it unchanged, an immediate return leaves it
unchanged, and a re-park nets -1 then +1. -/
theorem numWaiters_spec (p : Policy) (ks : List WaitKind) (s s' : SysState)
    (l : Label) :
    (initState ks).numWaiters = 0 ∧
    (Reach p s → 0 ≤ s.numWaiters ∧ s.numWaiters = countSW s.threads) ∧
    (Step p s l s' → isWaitLabel l = false → s'.numWaiters = s.numWaiters) ∧
    (∀ i r, Step p s (.ret i true r) s' → s'.numWaiters = s.numWaiters - 1) ∧
    (∀ i r, Step p s (.ret i false r) s' → s'.numWaiters = s.numWaiters) ∧
    (∀ i t, Step p s (.park i) s' → s.threads[i]? = some t →
      (t.phase = .ready → s'.numWaiters = s.numWaiters + 1) ∧
      (t.phase = .woken → s'.numWaiters = s.numWaiters - 1 + 1)) ∧
    (∀ i, Step p s (.spurious i) s' → s'.numWaiters = s.numWaiters) := by
  refine ⟨rfl, ?_, ?_, ?_, ?_, ?_, ?_⟩
  · intro hreach
    have hi := (reach_inv hreach).1
    refine ⟨?_, hi⟩
    rw [hi]
    exact countSW_nonneg s.threads
  · intro hst hl
    cases hst <;> first | rfl | (cases hl)
  · intro i r hst
    cases hst with
    | wokenReturn i2 t2 ts2 ht2 hp2 hk2 hrel2 => rfl
  · intro i r hst
    cases hst with
    | enterReturn i2 t2 ts2 ht2 hp2 hc2 hrel2 => rfl
  · intro i t hst ht
    cases hst with
    | enterPark i2 t2 ht2 hp2 hc2 =>
        have he : t2 = t := Option.some.inj (ht2.symm.trans ht)
        constructor
        · intro _; rfl
        · intro hw
          rw [he, hw] at hp2
          cases hp2
    | wokenRepark i2 t2 ht2 hp2 hk2 hc2 =>
        have he : t2 = t := Option.some.inj (ht2.symm.trans ht)
        constructor
        · intro hr
          rw [he, hr] at hp2
          cases hp2
        · intro _; rfl
  · intro i hst
    cases hst with
    | spuriousWake i2 t2 ht2 hp2 => rfl

/-- C8 witness: the initial state, a mutator step, a woken exit, an
immediate return, a park from entry and a spurious wake, each with the
stated effect on `numWaiters`. -/
theorem numWaiters_spec_witness :
    ((initState [WaitKind.untilZero]).numWaiters = 0) ∧
    (0 ≤ (initState [WaitKind.untilZero]).numWaiters ∧
      (initState [WaitKind.untilZero]).numWaiters
        = countSW (initState [WaitKind.untilZero]).threads) ∧
    ((2 : Int) = 2) ∧
    ((1 : Int) - 1 = 1 - 1) ∧
    ((0 : Int) = 0) ∧
    ((0 : Int) + 1 = 0 + 1) ∧
    ((1 : Int) = 1) := by
  refine ⟨?_, ?_, ?_, ?_, ?_, ?_, ?_⟩
  · exact (numWaiters_spec Policy.wakeOne [WaitKind.untilZero]
      (initState [WaitKind.untilZero]) (initState [WaitKind.untilZero])
      (.park 0)).1
  · exact (numWaiters_spec Policy.wakeOne [WaitKind.untilZero]
      (initState [WaitKind.untilZero]) (initState [WaitKind.untilZero])
      (.park 0)).2.1 (Reach.init [WaitKind.untilZero])
  · exact (numWaiters_spec Policy.wakeOne [] ⟨0, 2, []⟩ ⟨0 + 1, 2, []⟩
      (.increment (0 + 1))).2.2.1 (Step.increment ⟨0, 2, []⟩) rfl
  · exact (numWaiters_spec Policy.wakeOne []
      ⟨0, 1, [⟨WaitKind.untilZero, Phase.woken, 1⟩]⟩
      ⟨0, 1 - 1, relayFn (relayB Policy.wakeOne ((1 : Int) - 1))
        ([⟨WaitKind.untilZero, Phase.woken, 1⟩].set 0
          ⟨WaitKind.untilZero, Phase.done true, 1⟩)⟩
      (.ret 0 true (relayB Policy.wakeOne ((1 : Int) - 1)))).2.2.2.1 0
      (relayB Policy.wakeOne ((1 : Int) - 1))
      (Step.wokenReturn _ 0 ⟨WaitKind.untilZero, Phase.woken, 1⟩ _ (by decide) rfl
        (Or.inr (by decide)) (maybeNotify_relayFn _ _))
  · exact (numWaiters_spec Policy.wakeOne []
      ⟨0, 0, [⟨WaitKind.untilZero, Phase.ready, 0⟩]⟩
      ⟨0, 0, relayFn (relayB Policy.wakeOne 0)
        ([⟨WaitKind.untilZero, Phase.ready, 0⟩].set 0
          ⟨WaitKind.untilZero, Phase.done false, 0⟩)⟩
      (.ret 0 false (relayB Policy.wakeOne 0))).2.2.2.2.1 0
      (relayB Policy.wakeOne 0)
      (Step.enterReturn _ 0 ⟨WaitKind.untilZero, Phase.ready, 0⟩ _ (by decide) rfl
        (by decide) (maybeNotify_relayFn _ _))
  · exact ((numWaiters_spec Policy.wakeOne []
      ⟨5, 0, [⟨WaitKind.untilZero, Phase.ready, 0⟩]⟩
      ⟨5, 0 + 1, [⟨WaitKind.untilZero, Phase.ready, 0⟩].set 0
        ⟨WaitKind.untilZero, Phase.sleeping, 0 + 1⟩⟩
      (.park 0)).2.2.2.2.2.1 0 ⟨WaitKind.untilZero, Phase.ready, 0⟩
      (Step.enterPark _ 0 ⟨WaitKind.untilZero, Phase.ready, 0⟩ (by decide) rfl
        (by decide)) (by decide)).1 rfl
  · exact (numWaiters_spec Policy.wakeOne []
      ⟨3, 1, [⟨WaitKind.untilZero, Phase.sleeping, 1⟩]⟩
      ⟨3, 1, [⟨WaitKind.untilZero, Phase.sleeping, 1⟩].set 0
        (wakeThread ⟨WaitKind.untilZero, Phase.sleeping, 1⟩)⟩
      (.spurious 0)).2.2.2.2.2.2 0
      (Step.spuriousWake _ 0 ⟨WaitKind.untilZero, Phase.sleeping, 1⟩ (by decide) rfl)

/-- C9: if every thread is a `WaitUntilZero` waiter that is either parked
or already done, and a `Subtract` drives the counter from positive to
≤ 0, then (under either wake policy) there is a finite continuation of
wait-side steps after which every thread has returned from its wait
call — the triggering notify plus the relay chain (or the broadcast)
strands no waiter. -/
theorem drain_wakes_all (p : Policy) (s : SysState) (n : Int)
    (hnw : s.numWaiters = countSW s.threads)
    (hk : ∀ t ∈ s.threads, t.kind = .untilZero)
    (hph : ∀ t ∈ s.threads, t.phase = .sleeping ∨ isDone t.phase = true)
    (hc : 0 < s.counter) (hn : s.counter ≤ n) :
    ∃ s₁ s₂, Step p s (.subtract n (s.counter - n) true) s₁ ∧
      WaitSteps p s₁ s₂ ∧ AllDone s₂ := by
  have hdec : s.counter - n ≤ 0 := by omega
  have hd : decide (s.counter - n ≤ 0) = true := decide_eq_true hdec
  have hnl : NotifyList (if s.counter - n ≤ 0 then [wakeOf p] else [])
      s.threads (triggerFn p s.threads) := by
    rw [if_pos hdec]
    exact notifyList_trigger p s.threads
  have hstep0 := Step.subtract (p := p) s n (triggerFn p s.threads) hnl
  rw [hd] at hstep0
  have hready1 : ∀ u ∈ triggerFn p s.threads, u.phase ≠ .ready := by
    apply triggerFn_forall (fun u => u.phase ≠ Phase.ready)
      (fun u _ _ => by simp [wakeThread])
    intro u hu
    rcases hph u hu with h | h
    · rw [h]; intro hh; cases hh
    · intro hh
      rw [hh] at h
      cases h
  have hkind1 : ∀ u ∈ triggerFn p s.threads, u.kind = .untilZero := by
    apply triggerFn_forall (fun u => u.kind = WaitKind.untilZero)
      (fun u hu _ => by simpa [wakeThread] using hu)
    exact hk
  have hwake1 : (∃ u ∈ triggerFn p s.threads, u.phase = .sleeping) →
      p = .wakeOne ∧ ∃ u ∈ triggerFn p s.threads, u.phase = .woken := by
    intro hex
    obtain ⟨u, hu, hus⟩ := hex
    cases p with
    | wakeOne =>
        refine ⟨rfl, ?_⟩
        have hu0 : u ∈ s.threads := sleeping_of_notifyOneFn hu hus
        exact notifyOneFn_woken hu0 hus
    | wakeAll => exact absurd hus (wakeAllAct_no_sleeping s.threads u hu)
  obtain ⟨s₂, hsteps, hdone⟩ := drain (notDoneCount (triggerFn p s.threads))
    ⟨s.counter - n, s.numWaiters, triggerFn p s.threads⟩ rfl hdec
    (step_countSW hstep0 hnw) hkind1 hready1 hwake1
  exact ⟨⟨s.counter - n, s.numWaiters, triggerFn p s.threads⟩, s₂, hstep0,
    hsteps, hdone⟩

/-- C9 witness: two parked `WaitUntilZero` threads with counter 1 are
both eventually released after `Subtract(1)`, under both policies. -/
theorem drain_wakes_all_witness :
    (∃ s₁ s₂, Step Policy.wakeOne
        ⟨1, 2, [⟨WaitKind.untilZero, Phase.sleeping, 1⟩,
          ⟨WaitKind.untilZero, Phase.sleeping, 1⟩]⟩
        (.subtract 1 ((1 : Int) - 1) true) s₁ ∧
      WaitSteps Policy.wakeOne s₁ s₂ ∧ AllDone s₂) ∧
    (∃ s₁ s₂, Step Policy.wakeAll
        ⟨1, 2, [⟨WaitKind.untilZero, Phase.sleeping, 1⟩,
          ⟨WaitKind.untilZero, Phase.sleeping, 1⟩]⟩
        (.subtract 1 ((1 : Int) - 1) true) s₁ ∧
      WaitSteps Policy.wakeAll s₁ s₂ ∧ AllDone s₂) := by
  constructor
  · exact drain_wakes_all Policy.wakeOne
      ⟨1, 2, [⟨WaitKind.untilZero, Phase.sleeping, 1⟩,
        ⟨WaitKind.untilZero, Phase.sleeping, 1⟩]⟩ 1
      (by decide) (by decide) (by decide) (by decide) (by decide)
  · exact drain_wakes_all Policy.wakeAll
      ⟨1, 2, [⟨WaitKind.untilZero, Phase.sleeping, 1⟩,
        ⟨WaitKind.untilZero, Phase.sleeping, 1⟩]⟩ 1
      (by decide) (by decide) (by decide) (by decide) (by decide)

end TLC
